import Mathlib

/-!
Shallow embedding of `jtarchie/pdfrenamer` (`main.go`), a single-command CLI
that transcribes selected PDF pages through a multimodal LLM, extracts fields
from the aggregated markdown through a text LLM, renders a filename template,
and renames (or, in dry-run mode, prints) the file.

The external collaborators (PDF rasterizer `go-fitz`, the two OpenAI-HTTP
clients, `encoding/json`, `text/template`, `os.Rename`) are modelled as an
oracle environment `Env` of result-valued functions, and `CLI.Run` is embedded
as a function from the CLI options and the environment to an event trace (the
observable requests and effects, in order) together with the Go `error` result.
The page-range parsing (`strings.Split` + `strconv.Atoi` with the error
ignored) is embedded concretely, character by character.
-/

/-- Model of Go `strings.Split(s, sep)` for a one-character separator `sep`,
acting on the character list of the string: splits around every occurrence of
the separator and always returns at least one (possibly empty) field. -/
def goSplitChar (sep : Char) : List Char → List (List Char)
  | [] => [[]]
  | c :: cs =>
    if c = sep then [] :: goSplitChar sep cs
    else
      match goSplitChar sep cs with
      | [] => [[c]]
      | t :: ts => (c :: t) :: ts

/-- Syntactic well-formedness of a Go `strconv.Atoi` input: an optional sign
followed by a nonempty run of decimal digits. -/
def goIntWellFormed (s : List Char) : Bool :=
  match s with
  | [] => false
  | '-' :: rest => !rest.isEmpty && rest.all Char.isDigit
  | '+' :: rest => !rest.isEmpty && rest.all Char.isDigit
  | other => other.all Char.isDigit

/-- Decimal value of a digit list. -/
def digitsToNat (digits : List Char) : Nat :=
  digits.foldl (fun acc d => acc * 10 + (d.toNat - 48)) 0

/-- Model of Go `strconv.Atoi` as used in `CLI.Run`, where the returned error
is discarded: a syntax error yields 0 (`ParseInt` returns 0 with `ErrSyntax`),
and an out-of-range value is clamped to the 64-bit `int` bounds (`ParseInt`
returns the clamped value with `ErrRange`). -/
def goAtoi (s : List Char) : Int :=
  if goIntWellFormed s then
    let (neg, digits) :=
      match s with
      | '-' :: rest => (true, rest)
      | '+' :: rest => (false, rest)
      | other => (false, other)
    let v : Int := if neg then -(digitsToNat digits : Int) else (digitsToNat digits : Int)
    if v < -(2 ^ 63) then -(2 ^ 63)
    else if (2 ^ 63 - 1 : Int) < v then 2 ^ 63 - 1
    else v
  else 0

/-- The page-range selection at the top of `CLI.Run`: `startPage, endPage := 0, 0`;
split the spec on `"-"`; one field leaves `(0, 0)`; two fields set both
`startPage` and `endPage` from `Atoi(pageRange[0])` (the first field, both
times, errors ignored); any other field count leaves the initial `(0, 0)`. -/
def parsePageRange (s : String) : Int × Int :=
  let pageRange := goSplitChar '-' s.toList
  if pageRange.length = 1 then (0, 0)
  else if pageRange.length = 2 then
    (goAtoi (pageRange.headD []), goAtoi (pageRange.headD []))
  else (0, 0)

/-- The CLI options of the tool (the `CLI` struct in `main.go`). -/
structure CLI where
  filename : String
  pageRange : String
  endpoint : String
  apiKey : String
  imageModel : String
  textModel : String
  format : String
  prompt : String
  dryRun : Bool
  deriving DecidableEq

/-- Observable events of one run: the requests issued to the external
collaborators and the terminal effects, in program order.  `renameOp` records
an `os.Rename` attempt together with whether it succeeded. -/
inductive Event where
  | logSkip (page : Nat)
  | logEnd (page : Nat)
  | transcribeReq (page : Nat)
  | extractReq (markdown : String)
  | tmplParse (format : String)
  | tmplExec (format : String)
  | printOut (line : String)
  | renameOp (src target : String) (ok : Bool)
  | closeDoc
  deriving DecidableEq

/-- The oracle environment: results of the external collaborators.
`openDoc`/`numPage` model `fitz.New`/`doc.NumPage`; `image` models
`doc.Image(n)` (the bitmap itself is abstract); `jpegEncode` the JPEG+base64
encoding of page `n`'s bitmap; `transcribe` the image-model chat completion
for page `n`; `extract` the text-model chat completion on the aggregated
markdown; `jsonUnmarshal` `json.Unmarshal` into `map[string]string`;
`tmplParseRes`/`tmplExecRes` `template.Parse`/`Execute`; `renameRes`
`os.Rename`. -/
structure Env where
  openDoc : Except String Unit
  numPage : Nat
  image : Nat → Except String Unit
  jpegEncode : Nat → Except String String
  transcribe : Nat → Except String String
  extract : String → Except String String
  jsonUnmarshal : String → Except String (List (String × String))
  tmplParseRes : String → Except String Unit
  tmplExecRes : String → List (String × String) → Except String String
  renameRes : String → String → Except String Unit

/-- One unfolding structure for the page loop of `CLI.Run`, with an explicit
fuel argument (the number of remaining loop iterations, `env.numPage - n` at
every call) as the structural termination measure.  For `n` from 0 while
`n < doc.NumPage()`: `continue` (logging `pdf.skip`) when `n < startPage`,
`break` (logging `pdf.end`) when `endPage < n`, otherwise rasterize, encode
and transcribe the page, appending the completion text to `contents`; any
step's failure returns the wrapped error immediately. -/
def pageLoopF (env : Env) (startPage endPage : Int) :
    Nat → Nat → List String → List Event × Except String (List String)
  | 0, _, contents => ([], .ok contents)
  | fuel + 1, n, contents =>
    if n < env.numPage then
      if (n : Int) < startPage then
        (Event.logSkip n :: (pageLoopF env startPage endPage fuel (n + 1) contents).1,
          (pageLoopF env startPage endPage fuel (n + 1) contents).2)
      else if endPage < (n : Int) then
        ([Event.logEnd n], .ok contents)
      else
        match env.image n with
        | .error e => ([], .error ("failed to convert page #" ++ toString n ++ " to image: " ++ e))
        | .ok _ =>
          match env.jpegEncode n with
          | .error e => ([], .error ("failed to encode image #" ++ toString n ++ ": " ++ e))
          | .ok _ =>
            match env.transcribe n with
            | .error e =>
              ([Event.transcribeReq n],
                .error ("failed to convert image #" ++ toString n ++ " to markdown: " ++ e))
            | .ok content =>
              (Event.transcribeReq n ::
                  (pageLoopF env startPage endPage fuel (n + 1) (contents ++ [content])).1,
                (pageLoopF env startPage endPage fuel (n + 1) (contents ++ [content])).2)
    else ([], .ok contents)

/-- The page loop of `CLI.Run` starting at index `n`: `pageLoopF` supplied with
enough fuel for the remaining iterations. -/
def pageLoop (env : Env) (startPage endPage : Int) (n : Nat) (contents : List String) :
    List Event × Except String (List String) :=
  pageLoopF env startPage endPage (env.numPage - n) n contents

/-- The pipeline after the page loop: extraction request on the aggregated
markdown, JSON unmarshalling, template parse, template execute, then either
print (dry run) or rename; each failure returns the wrapped error. -/
def postLoop (cli : CLI) (env : Env) (markdown : String) : List Event × Except String Unit :=
  match env.extract markdown with
  | .error e =>
    ([Event.extractReq markdown], .error ("failed to extract information from markdown: " ++ e))
  | .ok payload =>
    match env.jsonUnmarshal payload with
    | .error e =>
      ([Event.extractReq markdown], .error ("failed to unmarshal JSON payload: " ++ e))
    | .ok values =>
      match env.tmplParseRes cli.format with
      | .error e =>
        ([Event.extractReq markdown, Event.tmplParse cli.format],
          .error ("failed to parse filename format: " ++ e))
      | .ok _ =>
        match env.tmplExecRes cli.format values with
        | .error e =>
          ([Event.extractReq markdown, Event.tmplParse cli.format, Event.tmplExec cli.format],
            .error ("failed to execute filename format: " ++ e))
        | .ok filename =>
          if cli.dryRun then
            ([Event.extractReq markdown, Event.tmplParse cli.format, Event.tmplExec cli.format,
              Event.printOut filename], .ok ())
          else
            match env.renameRes cli.filename filename with
            | .error e =>
              ([Event.extractReq markdown, Event.tmplParse cli.format, Event.tmplExec cli.format,
                Event.renameOp cli.filename filename false],
                .error ("failed to rename file: " ++ e))
            | .ok _ =>
              ([Event.extractReq markdown, Event.tmplParse cli.format, Event.tmplExec cli.format,
                Event.renameOp cli.filename filename true], .ok ())

/-- The body of `CLI.Run` between a successful `fitz.New` and the deferred
`doc.Close()`: the page loop, then `strings.Join(contents, "\n\n")`, then the
rest of the pipeline. -/
def pipelineAfterOpen (cli : CLI) (env : Env) (startPage endPage : Int) :
    List Event × Except String Unit :=
  match (pageLoop env startPage endPage 0 []).2 with
  | .error e => ((pageLoop env startPage endPage 0 []).1, .error e)
  | .ok contents =>
    ((pageLoop env startPage endPage 0 []).1
        ++ (postLoop cli env (String.intercalate "\n\n" contents)).1,
      (postLoop cli env (String.intercalate "\n\n" contents)).2)

/-- `CLI.Run` with the page bounds already computed: open the document (a
failure returns the wrapped error before anything else happens), run the
pipeline, and release the handle via the deferred `doc.Close()` on every path
out of the body. -/
def runWithRange (cli : CLI) (env : Env) (startPage endPage : Int) :
    List Event × Except String Unit :=
  match env.openDoc with
  | .error e => ([], .error ("failed to open PDF: " ++ e))
  | .ok _ =>
    ((pipelineAfterOpen cli env startPage endPage).1 ++ [Event.closeDoc],
      (pipelineAfterOpen cli env startPage endPage).2)

/-- `CLI.Run`: parse the page range, then run the pipeline. -/
def runCLI (cli : CLI) (env : Env) : List Event × Except String Unit :=
  runWithRange cli env (parsePageRange cli.pageRange).1 (parsePageRange cli.pageRange).2

/-- Discriminator: event is a transcription request. -/
def Event.isTranscribe : Event → Bool
  | .transcribeReq _ => true
  | _ => false

/-- Discriminator: event is an extraction request. -/
def Event.isExtract : Event → Bool
  | .extractReq _ => true
  | _ => false

/-- Discriminator: event is a template parse or execute. -/
def Event.isTmpl : Event → Bool
  | .tmplParse _ => true
  | .tmplExec _ => true
  | _ => false

/-- Discriminator: event is a rename attempt. -/
def Event.isRename : Event → Bool
  | .renameOp _ _ _ => true
  | _ => false

/-- Discriminator: event is a successful rename (the only filesystem change). -/
def Event.isRenameOk : Event → Bool
  | .renameOp _ _ ok => ok
  | _ => false

/-- Discriminator: event is the document-handle release. -/
def Event.isClose : Event → Bool
  | .closeDoc => true
  | _ => false

/-- Discriminator: event is a loop event (skip log, end log, or transcription
request). -/
def Event.isPageEvent : Event → Bool
  | .logSkip _ => true
  | .logEnd _ => true
  | .transcribeReq _ => true
  | _ => false

/-- Discriminator: event is the end-of-loop log. -/
def Event.isLogEnd : Event → Bool
  | .logEnd _ => true
  | _ => false

/-- The pages of the transcription requests in a trace, in order. -/
def transcribedPages (trace : List Event) : List Nat :=
  trace.filterMap fun ev =>
    match ev with
    | .transcribeReq p => some p
    | _ => none

/-- A concrete 3-page document environment in which every external call
succeeds: page `n` rasterizes, encodes to `"enc"`, and transcribes to
`"p" ++ toString n`; extraction returns `"payload"`, which unmarshals to a
single `Title` field; the template compiles and renders `"X.pdf"`; rename
succeeds. -/
def okEnv3 : Env where
  openDoc := .ok ()
  numPage := 3
  image := fun _ => .ok ()
  jpegEncode := fun _ => .ok "enc"
  transcribe := fun n => .ok ("p" ++ toString n)
  extract := fun _ => .ok "payload"
  jsonUnmarshal := fun _ => .ok [("Title", "X")]
  tmplParseRes := fun _ => .ok ()
  tmplExecRes := fun _ _ => .ok "X.pdf"
  renameRes := fun _ _ => .ok ()

/-- A concrete 5-page environment whose transcription request fails on page 2
and succeeds elsewhere; everything else succeeds. -/
def failEnv5 : Env where
  openDoc := .ok ()
  numPage := 5
  image := fun _ => .ok ()
  jpegEncode := fun _ => .ok "enc"
  transcribe := fun n => if n = 2 then .error "boom" else .ok "page"
  extract := fun _ => .ok "payload"
  jsonUnmarshal := fun _ => .ok [("Title", "X")]
  tmplParseRes := fun _ => .ok ()
  tmplExecRes := fun _ _ => .ok "X.pdf"
  renameRes := fun _ _ => .ok ()

/-- `okEnv3` with a JSON payload that does not decode into a flat
string-to-string mapping: `json.Unmarshal` fails. -/
def badJsonEnv3 : Env :=
  { okEnv3 with jsonUnmarshal := fun _ => .error "cannot unmarshal" }

/-- A concrete dry-run invocation on a 3-page document with page range
`"0-1"`. -/
def dryCLI : CLI where
  filename := "in.pdf"
  pageRange := "0-1"
  endpoint := ""
  apiKey := ""
  imageModel := "img"
  textModel := "txt"
  format := "fmt"
  prompt := ""
  dryRun := true

/-- `dryCLI` with the rename step enabled. -/
def wetCLI : CLI :=
  { dryCLI with dryRun := false }

/-- `wetCLI` with page range `"2-9"`, which the selector turns into the pair
`(2, 2)`. -/
def wetCLI2 : CLI :=
  { wetCLI with pageRange := "2-9" }

/-- `dryCLI` with the malformed page range `"x-y"`. -/
def malCLI : CLI :=
  { dryCLI with pageRange := "x-y" }

theorem goSplitChar_of_not_mem (sep : Char) (l : List Char) (h : sep ∉ l) :
    goSplitChar sep l = [l] := by
  induction l with
  | nil => rfl
  | cons c cs ih =>
    simp only [List.mem_cons, not_or] at h
    simp only [goSplitChar, ih h.2]
    simp [Ne.symm h.1]

theorem goSplitChar_append (sep : Char) (a b : List Char) (ha : sep ∉ a) :
    goSplitChar sep (a ++ sep :: b) = a :: goSplitChar sep b := by
  induction a with
  | nil => simp [goSplitChar]
  | cons c cs ih =>
    simp only [List.mem_cons, not_or] at ha
    simp only [List.cons_append, goSplitChar, List.append_eq]
    rw [ih ha.2]
    simp [Ne.symm ha.1]

theorem parsePageRange_single (spec : String) (h : '-' ∉ spec.toList) :
    parsePageRange spec = (0, 0) := by
  unfold parsePageRange
  rw [goSplitChar_of_not_mem '-' spec.toList h]
  rfl

theorem parsePageRange_pair (a b : List Char) (ha : '-' ∉ a) (hb : '-' ∉ b) :
    parsePageRange (String.mk (a ++ '-' :: b)) = (goAtoi a, goAtoi a) := by
  unfold parsePageRange
  have hl : (String.mk (a ++ '-' :: b)).toList = a ++ '-' :: b := rfl
  rw [hl, goSplitChar_append '-' a b ha, goSplitChar_of_not_mem '-' b hb]
  rfl

theorem goAtoi_malformed (s : List Char) (h : goIntWellFormed s = false) :
    goAtoi s = 0 := by
  unfold goAtoi
  rw [h]
  rfl

theorem parsePageRange_fst_eq_snd (spec : String) :
    (parsePageRange spec).1 = (parsePageRange spec).2 := by
  unfold parsePageRange
  dsimp only
  split
  · rfl
  · split <;> rfl


theorem pageLoopF_events (env : Env) (s e : Int) (fuel : Nat) :
    ∀ n acc, ∀ ev ∈ (pageLoopF env s e fuel n acc).1, ev.isPageEvent = true := by
  induction fuel with
  | zero => intro n acc; simp [pageLoopF]
  | succ fuel ih =>
    intro n acc ev hev
    simp only [pageLoopF] at hev
    split at hev
    · split at hev
      · rw [List.mem_cons] at hev
        rcases hev with rfl | hev
        · rfl
        · exact ih (n + 1) acc ev hev
      · split at hev
        · rw [List.mem_singleton] at hev; subst hev; rfl
        · rcases h1 : env.image n with e1 | u1 <;> rw [h1] at hev
          · simp at hev
          · rcases h2 : env.jpegEncode n with e2 | s2 <;> rw [h2] at hev
            · simp at hev
            · rcases h3 : env.transcribe n with e3 | c3 <;> rw [h3] at hev
              · rw [List.mem_singleton] at hev; subst hev; rfl
              · rw [List.mem_cons] at hev
                rcases hev with rfl | hev
                · rfl
                · exact ih (n + 1) (acc ++ [c3]) ev hev
    · simp at hev

theorem pageLoopF_countP_zero (env : Env) (s e : Int) (fuel n : Nat) (acc : List String)
    (p : Event → Bool) (hp : ∀ ev : Event, ev.isPageEvent = true → p ev = false) :
    (pageLoopF env s e fuel n acc).1.countP p = 0 := by
  rw [List.countP_eq_zero]
  intro ev hev
  simp [hp ev (pageLoopF_events env s e fuel n acc ev hev)]

theorem pageLoopF_transcribe_mem (env : Env) (s e : Int) (fuel : Nat) :
    ∀ n acc k, Event.transcribeReq k ∈ (pageLoopF env s e fuel n acc).1 →
      s ≤ (k : Int) ∧ (k : Int) ≤ e ∧ k < env.numPage := by
  induction fuel with
  | zero => intro n acc k h; simp [pageLoopF] at h
  | succ fuel ih =>
    intro n acc k hev
    simp only [pageLoopF] at hev
    by_cases hnp : n < env.numPage
    · rw [if_pos hnp] at hev
      by_cases hs : (n : Int) < s
      · rw [if_pos hs] at hev
        rw [List.mem_cons] at hev
        rcases hev with h | hev
        · simp at h
        · exact ih (n + 1) acc k hev
      · rw [if_neg hs] at hev
        by_cases he : e < (n : Int)
        · rw [if_pos he] at hev
          simp at hev
        · rw [if_neg he] at hev
          rcases h1 : env.image n with e1 | u1 <;> rw [h1] at hev
          · simp at hev
          · rcases h2 : env.jpegEncode n with e2 | s2 <;> rw [h2] at hev
            · simp at hev
            · rcases h3 : env.transcribe n with e3 | c3 <;> rw [h3] at hev
              · rw [List.mem_singleton] at hev
                cases hev
                exact ⟨le_of_not_lt hs, le_of_not_lt he, hnp⟩
              · rw [List.mem_cons] at hev
                rcases hev with h | hev
                · cases h
                  exact ⟨le_of_not_lt hs, le_of_not_lt he, hnp⟩
                · exact ih (n + 1) (acc ++ [c3]) k hev
    · rw [if_neg hnp] at hev
      simp at hev

theorem pageLoopF_logSkip_mem (env : Env) (s e : Int) (fuel : Nat) :
    ∀ n acc k, Event.logSkip k ∈ (pageLoopF env s e fuel n acc).1 → (k : Int) < s := by
  induction fuel with
  | zero => intro n acc k h; simp [pageLoopF] at h
  | succ fuel ih =>
    intro n acc k hev
    simp only [pageLoopF] at hev
    by_cases hnp : n < env.numPage
    · rw [if_pos hnp] at hev
      by_cases hs : (n : Int) < s
      · rw [if_pos hs] at hev
        rw [List.mem_cons] at hev
        rcases hev with h | hev
        · cases h; exact hs
        · exact ih (n + 1) acc k hev
      · rw [if_neg hs] at hev
        by_cases he : e < (n : Int)
        · rw [if_pos he] at hev
          simp at hev
        · rw [if_neg he] at hev
          rcases h1 : env.image n with e1 | u1 <;> rw [h1] at hev
          · simp at hev
          · rcases h2 : env.jpegEncode n with e2 | s2 <;> rw [h2] at hev
            · simp at hev
            · rcases h3 : env.transcribe n with e3 | c3 <;> rw [h3] at hev
              · simp at hev
              · rw [List.mem_cons] at hev
                rcases hev with h | hev
                · simp at h
                · exact ih (n + 1) (acc ++ [c3]) k hev
    · rw [if_neg hnp] at hev
      simp at hev

theorem pageLoopF_logEnd_mem (env : Env) (s e : Int) (fuel : Nat) :
    ∀ n acc k, Event.logEnd k ∈ (pageLoopF env s e fuel n acc).1 →
      s ≤ (k : Int) ∧ e < (k : Int) ∧ n ≤ k ∧ ∀ j, n ≤ j → j < k → ((j : Int) < s ∨ (j : Int) ≤ e) := by
  induction fuel with
  | zero => intro n acc k h; simp [pageLoopF] at h
  | succ fuel ih =>
    intro n acc k hev
    simp only [pageLoopF] at hev
    by_cases hnp : n < env.numPage
    · rw [if_pos hnp] at hev
      by_cases hs : (n : Int) < s
      · rw [if_pos hs] at hev
        rw [List.mem_cons] at hev
        rcases hev with h | hev
        · simp at h
        · obtain ⟨h1, h2, h3, h4⟩ := ih (n + 1) acc k hev
          refine ⟨h1, h2, by omega, fun j hj hjk => ?_⟩
          rcases Nat.eq_or_lt_of_le hj with rfl | hj2
          · exact Or.inl hs
          · exact h4 j hj2 hjk
      · rw [if_neg hs] at hev
        by_cases he : e < (n : Int)
        · rw [if_pos he] at hev
          rw [List.mem_singleton] at hev
          cases hev
          exact ⟨le_of_not_lt hs, he, le_refl n, fun j hj hjk => absurd (lt_of_le_of_lt hj hjk) (lt_irrefl n)⟩
        · rw [if_neg he] at hev
          rcases h1 : env.image n with e1 | u1 <;> rw [h1] at hev
          · simp at hev
          · rcases h2 : env.jpegEncode n with e2 | s2 <;> rw [h2] at hev
            · simp at hev
            · rcases h3 : env.transcribe n with e3 | c3 <;> rw [h3] at hev
              · simp at hev
              · rw [List.mem_cons] at hev
                rcases hev with h | hev
                · simp at h
                · obtain ⟨hh1, hh2, hh3, hh4⟩ := ih (n + 1) (acc ++ [c3]) k hev
                  refine ⟨hh1, hh2, by omega, fun j hj hjk => ?_⟩
                  rcases Nat.eq_or_lt_of_le hj with rfl | hj2
                  · exact Or.inr (le_of_not_lt he)
                  · exact hh4 j hj2 hjk
    · rw [if_neg hnp] at hev
      simp at hev

theorem pageLoopF_logEnd_count (env : Env) (s e : Int) (fuel : Nat) :
    ∀ n acc, (pageLoopF env s e fuel n acc).1.countP Event.isLogEnd ≤ 1 := by
  induction fuel with
  | zero => intro n acc; simp [pageLoopF]
  | succ fuel ih =>
    intro n acc
    simp only [pageLoopF]
    by_cases hnp : n < env.numPage
    · rw [if_pos hnp]
      by_cases hs : (n : Int) < s
      · rw [if_pos hs]
        simp only [List.countP_cons]
        have : Event.isLogEnd (Event.logSkip n) = false := rfl
        rw [this]
        simpa using ih (n + 1) acc
      · rw [if_neg hs]
        by_cases he : e < (n : Int)
        · rw [if_pos he]
          simp [List.countP_cons, Event.isLogEnd]
        · rw [if_neg he]
          rcases h1 : env.image n with e1 | u1
          · simp
          · rcases h2 : env.jpegEncode n with e2 | s2
            · simp
            · rcases h3 : env.transcribe n with e3 | c3
              · simp [List.countP_cons, Event.isLogEnd]
              · simp only [List.countP_cons]
                have : Event.isLogEnd (Event.transcribeReq n) = false := rfl
                rw [this]
                simpa using ih (n + 1) (acc ++ [c3])
    · rw [if_neg hnp]
      simp

theorem transcribedPages_nil : transcribedPages [] = [] := rfl

theorem transcribedPages_cons_skip (p : Nat) (l : List Event) :
    transcribedPages (Event.logSkip p :: l) = transcribedPages l := rfl

theorem transcribedPages_cons_end (p : Nat) (l : List Event) :
    transcribedPages (Event.logEnd p :: l) = transcribedPages l := rfl

theorem transcribedPages_cons_req (p : Nat) (l : List Event) :
    transcribedPages (Event.transcribeReq p :: l) = p :: transcribedPages l := rfl

theorem pageLoopF_past_end (env : Env) (s e : Int) (fuel n : Nat) (acc : List String)
    (hs : s ≤ (n : Int)) (he : e < (n : Int)) :
    (pageLoopF env s e fuel n acc).1.countP Event.isTranscribe = 0
    ∧ (pageLoopF env s e fuel n acc).2 = .ok acc := by
  cases fuel with
  | zero => simp [pageLoopF]
  | succ fuel =>
    simp only [pageLoopF]
    by_cases hnp : n < env.numPage
    · rw [if_pos hnp, if_neg (not_lt.mpr hs), if_pos he]
      exact ⟨rfl, rfl⟩
    · rw [if_neg hnp]
      exact ⟨rfl, rfl⟩

theorem pageLoopF_single_bound (env : Env) (b : Int) (fuel : Nat) :
    ∀ n acc, (pageLoopF env b b fuel n acc).1.countP Event.isTranscribe ≤ 1
      ∧ ∀ contents, (pageLoopF env b b fuel n acc).2 = .ok contents →
          contents.length ≤ acc.length + 1 := by
  induction fuel with
  | zero =>
    intro n acc
    refine ⟨by simp [pageLoopF], fun contents h => ?_⟩
    simp only [pageLoopF] at h
    cases h
    omega
  | succ fuel ih =>
    intro n acc
    simp only [pageLoopF]
    by_cases hnp : n < env.numPage
    · rw [if_pos hnp]
      by_cases hs : (n : Int) < b
      · rw [if_pos hs]
        simp only [List.countP_cons]
        have hz : Event.isTranscribe (Event.logSkip n) = false := rfl
        rw [hz]
        exact ⟨by simpa using (ih (n + 1) acc).1, (ih (n + 1) acc).2⟩
      · rw [if_neg hs]
        by_cases he : b < (n : Int)
        · rw [if_pos he]
          refine ⟨by simp [Event.isTranscribe], fun contents h => ?_⟩
          cases h
          omega
        · rw [if_neg he]
          rcases h1 : env.image n with e1 | u1
          · exact ⟨by simp, fun contents h => by cases h⟩
          · rcases h2 : env.jpegEncode n with e2 | s2
            · exact ⟨by simp, fun contents h => by cases h⟩
            · rcases h3 : env.transcribe n with e3 | c3
              · exact ⟨by simp [Event.isTranscribe], fun contents h => by cases h⟩
              · have hpast := pageLoopF_past_end env b b fuel (n + 1) (acc ++ [c3])
                  (by omega) (by omega)
                simp only [List.countP_cons]
                have hz : Event.isTranscribe (Event.transcribeReq n) = true := rfl
                rw [hz, hpast.1]
                refine ⟨by simp, fun contents h => ?_⟩
                rw [hpast.2] at h
                cases h
                simp
    · rw [if_neg hnp]
      refine ⟨by simp, fun contents h => ?_⟩
      cases h
      omega

theorem pageLoopF_ok_trace (env : Env) (s e : Int)
    (hok : ∀ k, k < env.numPage → s ≤ (k : Int) → (k : Int) ≤ e →
      env.image k = .ok () ∧ (∃ x, env.jpegEncode k = .ok x) ∧ (∃ c, env.transcribe k = .ok c))
    (fuel : Nat) :
    ∀ n acc, env.numPage ≤ n + fuel →
      transcribedPages (pageLoopF env s e fuel n acc).1
        = (List.range' n (env.numPage - n)).filter
            (fun k : Nat => decide (s ≤ (k : Int)) && decide ((k : Int) ≤ e)) := by
  induction fuel with
  | zero =>
    intro n acc hf
    have : env.numPage - n = 0 := by omega
    simp [pageLoopF, this, transcribedPages]
  | succ fuel ih =>
    intro n acc hf
    simp only [pageLoopF]
    by_cases hnp : n < env.numPage
    · have hrange : env.numPage - n = (env.numPage - (n + 1)) + 1 := by omega
      rw [if_pos hnp, hrange, List.range'_succ]
      by_cases hs : (n : Int) < s
      · rw [if_pos hs]
        rw [transcribedPages_cons_skip]
        rw [List.filter_cons_of_neg (by simp; intro h; omega)]
        exact ih (n + 1) acc (by omega)
      · rw [if_neg hs]
        by_cases he : e < (n : Int)
        · rw [if_pos he]
          rw [List.filter_eq_nil_iff.mpr ?later]
          · rfl
          case later =>
            intro a ha
            rw [List.mem_cons] at ha
            simp only [Bool.and_eq_true, decide_eq_true_eq]
            rintro ⟨hsa, hea⟩
            rcases ha with rfl | ha
            · omega
            · rw [List.mem_range'_1] at ha
              omega
        · rw [if_neg he]
          obtain ⟨him, ⟨x2, hx2⟩, ⟨c3, hc3⟩⟩ :=
            hok n hnp (le_of_not_lt hs) (le_of_not_lt he)
          rw [him, hx2, hc3]
          rw [transcribedPages_cons_req]
          rw [List.filter_cons_of_pos (by simp; omega)]
          rw [ih (n + 1) (acc ++ [c3]) (by omega)]
    · have : env.numPage - n = 0 := by omega
      rw [if_neg hnp]
      simp [this, transcribedPages]

theorem postLoop_events (cli : CLI) (env : Env) (md : String) :
    ∀ ev ∈ (postLoop cli env md).1, ev.isPageEvent = false ∧ ev.isClose = false := by
  intro ev hev
  unfold postLoop at hev
  rcases h1 : env.extract md with e1 | payload <;> simp only [h1] at hev
  · rw [List.mem_singleton] at hev; subst hev; exact ⟨rfl, rfl⟩
  · rcases h2 : env.jsonUnmarshal payload with e2 | values <;> simp only [h2] at hev
    · rw [List.mem_singleton] at hev; subst hev; exact ⟨rfl, rfl⟩
    · rcases h3 : env.tmplParseRes cli.format with e3 | u3 <;> simp only [h3] at hev
      · simp only [List.mem_cons, List.not_mem_nil, or_false] at hev
        rcases hev with rfl | rfl <;> exact ⟨rfl, rfl⟩
      · rcases h4 : env.tmplExecRes cli.format values with e4 | fn <;> simp only [h4] at hev
        · simp only [List.mem_cons, List.not_mem_nil, or_false] at hev
          rcases hev with rfl | rfl | rfl <;> exact ⟨rfl, rfl⟩
        · by_cases hd : cli.dryRun <;> simp only [hd, if_true, if_false, Bool.false_eq_true] at hev
          · simp only [List.mem_cons, List.not_mem_nil, or_false] at hev
            rcases hev with rfl | rfl | rfl | rfl <;> exact ⟨rfl, rfl⟩
          · rcases h5 : env.renameRes cli.filename fn with e5 | u5 <;> simp only [h5] at hev <;>
              simp only [List.mem_cons, List.not_mem_nil, or_false] at hev <;>
              (rcases hev with rfl | rfl | rfl | rfl <;> exact ⟨rfl, rfl⟩)

theorem postLoop_extract_mem (cli : CLI) (env : Env) (md : String) :
    Event.extractReq md ∈ (postLoop cli env md).1 := by
  unfold postLoop
  rcases h1 : env.extract md with e1 | payload <;> simp only [h1]
  · exact List.mem_singleton.mpr rfl
  · rcases h2 : env.jsonUnmarshal payload with e2 | values <;> simp only [h2]
    · exact List.mem_singleton.mpr rfl
    · rcases h3 : env.tmplParseRes cli.format with e3 | u3 <;> simp only [h3]
      · exact List.mem_cons_self _ _
      · rcases h4 : env.tmplExecRes cli.format values with e4 | fn <;> simp only [h4]
        · exact List.mem_cons_self _ _
        · by_cases hd : cli.dryRun <;> simp only [hd, if_true, if_false, Bool.false_eq_true]
          · exact List.mem_cons_self _ _
          · rcases h5 : env.renameRes cli.filename fn with e5 | u5 <;>
              exact List.mem_cons_self _ _

theorem postLoop_countP_zero (cli : CLI) (env : Env) (md : String) (p : Event → Bool)
    (hp : ∀ ev : Event, ev.isPageEvent = false → ev.isClose = false → p ev = false) :
    (postLoop cli env md).1.countP p = 0 := by
  rw [List.countP_eq_zero]
  intro ev hev
  obtain ⟨h1, h2⟩ := postLoop_events cli env md ev hev
  simp [hp ev h1 h2]

theorem postLoop_dryRun_no_rename (cli : CLI) (env : Env) (md : String)
    (hd : cli.dryRun = true) :
    (postLoop cli env md).1.countP Event.isRename = 0 := by
  rw [List.countP_eq_zero]
  intro ev hev
  unfold postLoop at hev
  rcases h1 : env.extract md with e1 | payload <;> simp only [h1] at hev
  · rw [List.mem_singleton] at hev; subst hev; simp [Event.isRename]
  · rcases h2 : env.jsonUnmarshal payload with e2 | values <;> simp only [h2] at hev
    · rw [List.mem_singleton] at hev; subst hev; simp [Event.isRename]
    · rcases h3 : env.tmplParseRes cli.format with e3 | u3 <;> simp only [h3] at hev
      · simp only [List.mem_cons, List.not_mem_nil, or_false] at hev
        rcases hev with rfl | rfl <;> simp [Event.isRename]
      · rcases h4 : env.tmplExecRes cli.format values with e4 | fn <;> simp only [h4] at hev
        · simp only [List.mem_cons, List.not_mem_nil, or_false] at hev
          rcases hev with rfl | rfl | rfl <;> simp [Event.isRename]
        · rw [hd, if_pos rfl] at hev
          simp only [List.mem_cons, List.not_mem_nil, or_false] at hev
          rcases hev with rfl | rfl | rfl | rfl <;> simp [Event.isRename]

theorem postLoop_error_no_renameOk (cli : CLI) (env : Env) (md : String) (err : String)
    (h : (postLoop cli env md).2 = .error err) :
    (postLoop cli env md).1.countP Event.isRenameOk = 0 := by
  rw [List.countP_eq_zero]
  intro ev hev
  unfold postLoop at h hev
  rcases h1 : env.extract md with e1 | payload <;> simp only [h1] at h hev
  · rw [List.mem_singleton] at hev; subst hev; simp [Event.isRenameOk]
  · rcases h2 : env.jsonUnmarshal payload with e2 | values <;> simp only [h2] at h hev
    · rw [List.mem_singleton] at hev; subst hev; simp [Event.isRenameOk]
    · rcases h3 : env.tmplParseRes cli.format with e3 | u3 <;> simp only [h3] at h hev
      · simp only [List.mem_cons, List.not_mem_nil, or_false] at hev
        rcases hev with rfl | rfl <;> simp [Event.isRenameOk]
      · rcases h4 : env.tmplExecRes cli.format values with e4 | fn <;> simp only [h4] at h hev
        · simp only [List.mem_cons, List.not_mem_nil, or_false] at hev
          rcases hev with rfl | rfl | rfl <;> simp [Event.isRenameOk]
        · by_cases hd : cli.dryRun <;> simp only [hd, if_true, if_false, Bool.false_eq_true] at h hev
          · cases h
          · rcases h5 : env.renameRes cli.filename fn with e5 | u5 <;> simp only [h5] at h hev
            · simp only [List.mem_cons, List.not_mem_nil, or_false] at hev
              rcases hev with rfl | rfl | rfl | rfl <;> simp [Event.isRenameOk]
            · cases h

theorem postLoop_unmarshal_error (cli : CLI) (env : Env) (md payload msg : String)
    (hex : env.extract md = .ok payload) (hj : env.jsonUnmarshal payload = .error msg) :
    postLoop cli env md = ([Event.extractReq md], .error ("failed to unmarshal JSON payload: " ++ msg)) := by
  unfold postLoop
  simp only [hex, hj]

theorem postLoop_dry_success (cli : CLI) (env : Env) (md payload fn : String)
    (values : List (String × String)) (hd : cli.dryRun = true)
    (hex : env.extract md = .ok payload) (hj : env.jsonUnmarshal payload = .ok values)
    (hp : env.tmplParseRes cli.format = .ok ())
    (he : env.tmplExecRes cli.format values = .ok fn) :
    postLoop cli env md
      = ([Event.extractReq md, Event.tmplParse cli.format, Event.tmplExec cli.format,
          Event.printOut fn], .ok ()) := by
  unfold postLoop
  simp only [hex, hj, hp, he, hd, if_pos]

theorem postLoop_wet_rename (cli : CLI) (env : Env) (md payload fn : String)
    (values : List (String × String)) (hd : cli.dryRun = false)
    (hex : env.extract md = .ok payload) (hj : env.jsonUnmarshal payload = .ok values)
    (hp : env.tmplParseRes cli.format = .ok ())
    (he : env.tmplExecRes cli.format values = .ok fn) :
    (postLoop cli env md).1.countP Event.isRename = 1
    ∧ ∃ b, Event.renameOp cli.filename fn b ∈ (postLoop cli env md).1 := by
  unfold postLoop
  simp only [hex, hj, hp, he, hd, Bool.false_eq_true, if_false]
  rcases h5 : env.renameRes cli.filename fn with e5 | u5
  · constructor
    · rfl
    · exact ⟨false, by simp⟩
  · constructor
    · rfl
    · exact ⟨true, by simp⟩

theorem pageLoop_countP_zero (env : Env) (s e : Int) (n : Nat) (acc : List String)
    (p : Event → Bool) (hp : ∀ ev : Event, ev.isPageEvent = true → p ev = false) :
    (pageLoop env s e n acc).1.countP p = 0 :=
  pageLoopF_countP_zero env s e (env.numPage - n) n acc p hp

theorem pipeline_no_close (cli : CLI) (env : Env) (s e : Int) :
    (pipelineAfterOpen cli env s e).1.countP Event.isClose = 0 := by
  unfold pipelineAfterOpen
  rcases hl : (pageLoop env s e 0 []).2 with el | cont <;> simp only [hl]
  · exact pageLoop_countP_zero env s e 0 [] Event.isClose
      (fun ev h => by cases ev <;> simp_all [Event.isPageEvent, Event.isClose])
  · rw [List.countP_append,
      pageLoop_countP_zero env s e 0 [] Event.isClose
        (fun ev h => by cases ev <;> simp_all [Event.isPageEvent, Event.isClose]),
      postLoop_countP_zero cli env _ Event.isClose (fun ev h1 h2 => h2)]


theorem runCLI_transcribe_le_one (cli : CLI) (env : Env) :
    (runCLI cli env).1.countP Event.isTranscribe ≤ 1 := by
  have hpr := parsePageRange_fst_eq_snd cli.pageRange
  have hp2 : ∀ ev : Event, ev.isPageEvent = false → ev.isClose = false →
      Event.isTranscribe ev = false := by
    intro ev h1 h2
    cases ev <;> simp_all [Event.isPageEvent, Event.isTranscribe]
  unfold runCLI runWithRange
  rcases ho : env.openDoc with eo | u <;> simp only [ho]
  · simp
  · rw [List.countP_append]
    have hc : List.countP Event.isTranscribe [Event.closeDoc] = 0 := rfl
    rw [hc, hpr]
    unfold pipelineAfterOpen
    rcases hl : (pageLoop env (parsePageRange cli.pageRange).2 (parsePageRange cli.pageRange).2 0 []).2
        with el | cont <;> simp only [hl]
    · unfold pageLoop
      have h2 := (pageLoopF_single_bound env (parsePageRange cli.pageRange).2
        (env.numPage - 0) 0 []).1
      omega
    · rw [List.countP_append, postLoop_countP_zero cli env _ Event.isTranscribe hp2]
      unfold pageLoop
      have h2 := (pageLoopF_single_bound env (parsePageRange cli.pageRange).2 (env.numPage - 0) 0 []).1
      omega

theorem pageLoopF_error_at (env : Env) (s e : Int) (n : Nat) (msg : String)
    (hn : n < env.numPage) (hs : s ≤ (n : Int)) (he : (n : Int) ≤ e)
    (hpre : ∀ k, k < n → s ≤ (k : Int) →
      env.image k = .ok () ∧ (∃ x, env.jpegEncode k = .ok x) ∧ (∃ c, env.transcribe k = .ok c))
    (him : env.image n = .ok ()) (henc : ∃ x, env.jpegEncode n = .ok x)
    (htr : env.transcribe n = .error msg) (fuel : Nat) :
    ∀ m acc, m ≤ n → env.numPage ≤ m + fuel →
      (pageLoopF env s e fuel m acc).2
        = .error ("failed to convert image #" ++ toString n ++ " to markdown: " ++ msg) := by
  induction fuel with
  | zero => intro m acc hm hf; omega
  | succ fuel ih =>
    intro m acc hm hf
    have hmp : m < env.numPage := lt_of_le_of_lt hm hn
    simp only [pageLoopF]
    rw [if_pos hmp]
    rcases Nat.eq_or_lt_of_le hm with rfl | hmn
    · rw [if_neg (not_lt.mpr hs), if_neg (not_lt.mpr he)]
      obtain ⟨x, hx⟩ := henc
      rw [him, hx, htr]
    · by_cases hms : (m : Int) < s
      · rw [if_pos hms]
        exact ih (m + 1) acc (by omega) (by omega)
      · rw [if_neg hms]
        have hme : ¬ e < (m : Int) := by
          push_neg
          have : (m : Int) < (n : Int) := by exact_mod_cast hmn
          omega
        rw [if_neg hme]
        obtain ⟨him2, ⟨x2, hx2⟩, ⟨c2, hc2⟩⟩ := hpre m hmn (le_of_not_lt hms)
        rw [him2, hx2, hc2]
        exact ih (m + 1) (acc ++ [c2]) (by omega) (by omega)


theorem pageLoopF_ok_result (env : Env) (s e : Int) (tc : Nat → String)
    (hok : ∀ k, k < env.numPage → s ≤ (k : Int) → (k : Int) ≤ e →
      env.image k = .ok () ∧ (∃ x, env.jpegEncode k = .ok x) ∧ env.transcribe k = .ok (tc k))
    (fuel : Nat) :
    ∀ n acc, env.numPage ≤ n + fuel →
      (pageLoopF env s e fuel n acc).2
        = .ok (acc ++ ((List.range' n (env.numPage - n)).filter
            (fun k : Nat => decide (s ≤ (k : Int)) && decide ((k : Int) ≤ e))).map tc) := by
  induction fuel with
  | zero =>
    intro n acc hf
    have h0 : env.numPage - n = 0 := by omega
    simp [pageLoopF, h0]
  | succ fuel ih =>
    intro n acc hf
    simp only [pageLoopF]
    by_cases hnp : n < env.numPage
    · have hrange : env.numPage - n = (env.numPage - (n + 1)) + 1 := by omega
      rw [if_pos hnp, hrange, List.range'_succ]
      by_cases hs : (n : Int) < s
      · rw [if_pos hs]
        rw [List.filter_cons_of_neg (by simp; intro h; omega)]
        exact ih (n + 1) acc (by omega)
      · rw [if_neg hs]
        by_cases he : e < (n : Int)
        · rw [if_pos he]
          rw [List.filter_eq_nil_iff.mpr ?later]
          · simp
          case later =>
            intro a ha
            rw [List.mem_cons] at ha
            simp only [Bool.and_eq_true, decide_eq_true_eq]
            rintro ⟨hsa, hea⟩
            rcases ha with rfl | ha
            · omega
            · rw [List.mem_range'_1] at ha
              omega
        · rw [if_neg he]
          obtain ⟨him, ⟨x2, hx2⟩, hc3⟩ := hok n hnp (le_of_not_lt hs) (le_of_not_lt he)
          rw [him, hx2, hc3]
          rw [List.filter_cons_of_pos (by simp; omega)]
          rw [ih (n + 1) (acc ++ [tc n]) (by omega)]
          simp
    · have h0 : env.numPage - n = 0 := by omega
      rw [if_neg hnp]
      simp [h0]

theorem transcribedPages_length (l : List Event) :
    (transcribedPages l).length = l.countP Event.isTranscribe := by
  induction l with
  | nil => rfl
  | cons ev l ih =>
    cases ev <;> simp [transcribedPages, List.filterMap_cons, List.countP_cons,
      Event.isTranscribe] at ih ⊢ <;> omega

theorem mem_transcribedPages (k : Nat) (l : List Event) :
    k ∈ transcribedPages l ↔ Event.transcribeReq k ∈ l := by
  unfold transcribedPages
  rw [List.mem_filterMap]
  constructor
  · rintro ⟨ev, hev, hf⟩
    cases ev <;> simp_all
  · intro h
    exact ⟨Event.transcribeReq k, h, rfl⟩

theorem runCLI_error_no_renameOk (cli : CLI) (env : Env) (err : String)
    (h : (runCLI cli env).2 = .error err) :
    (runCLI cli env).1.countP Event.isRenameOk = 0 := by
  have hp1 : ∀ ev : Event, ev.isPageEvent = true → Event.isRenameOk ev = false := by
    intro ev h1
    cases ev <;> simp_all [Event.isPageEvent, Event.isRenameOk]
  unfold runCLI runWithRange at h ⊢
  rcases ho : env.openDoc with eo | u <;> simp only [ho] at h ⊢
  · rfl
  · rw [List.countP_append]
    have hc : List.countP Event.isRenameOk [Event.closeDoc] = 0 := rfl
    rw [hc]
    unfold pipelineAfterOpen at h ⊢
    rcases hl : (pageLoop env (parsePageRange cli.pageRange).1 (parsePageRange cli.pageRange).2
        0 []).2 with el | cont <;> simp only [hl] at h ⊢
    · rw [pageLoop_countP_zero env _ _ 0 [] Event.isRenameOk hp1]
    · rw [List.countP_append, pageLoop_countP_zero env _ _ 0 [] Event.isRenameOk hp1,
        postLoop_error_no_renameOk cli env _ err h]

theorem runCLI_dry_no_rename (cli : CLI) (env : Env) (hd : cli.dryRun = true) :
    (runCLI cli env).1.countP Event.isRename = 0 := by
  have hp1 : ∀ ev : Event, ev.isPageEvent = true → Event.isRename ev = false := by
    intro ev h1
    cases ev <;> simp_all [Event.isPageEvent, Event.isRename]
  unfold runCLI runWithRange
  rcases ho : env.openDoc with eo | u <;> simp only [ho]
  · rfl
  · rw [List.countP_append]
    have hc : List.countP Event.isRename [Event.closeDoc] = 0 := rfl
    rw [hc]
    unfold pipelineAfterOpen
    rcases hl : (pageLoop env (parsePageRange cli.pageRange).1 (parsePageRange cli.pageRange).2
        0 []).2 with el | cont <;> simp only [hl]
    · rw [pageLoop_countP_zero env _ _ 0 [] Event.isRename hp1]
    · rw [List.countP_append, pageLoop_countP_zero env _ _ 0 [] Event.isRename hp1,
        postLoop_dryRun_no_rename cli env _ hd]

/-- C1 counterexample: on the concrete 3-page document `okEnv3` run with page
range `"0-1"` (`dryCLI`), exactly one transcription request is issued and page
1 is never sent to the transcription client — contradicting the claim that
pages 0 and 1 are both transcribed and the Transcript has exactly 2 entries.
The selector turns `"0-1"` into `(0, 0)`, so the loop stops after page 0. -/
theorem range01_counterexample :
    (runCLI dryCLI okEnv3).1.countP Event.isTranscribe = 1
    ∧ Event.transcribeReq 1 ∉ (runCLI dryCLI okEnv3).1 := by decide

/-- C1 (amended): for every 3-page document processed with page-range spec
`"0-1"` whose page 0 rasterizes, encodes and transcribes successfully to `c`,
exactly one transcription request is issued (for page 0; pages 1 and 2 are
never sent), and the aggregated Transcript passed to the extraction client is
exactly that single entry `c` (a one-element join has no separator). -/
theorem range01_single_page (cli : CLI) (env : Env) (c : String)
    (hrange : cli.pageRange = "0-1") (hnum : env.numPage = 3)
    (hopen : env.openDoc = .ok ()) (him0 : env.image 0 = .ok ())
    (henc0 : ∃ x, env.jpegEncode 0 = .ok x) (htr0 : env.transcribe 0 = .ok c) :
    (runCLI cli env).1.countP Event.isTranscribe = 1
    ∧ Event.transcribeReq 0 ∈ (runCLI cli env).1
    ∧ Event.transcribeReq 1 ∉ (runCLI cli env).1
    ∧ Event.transcribeReq 2 ∉ (runCLI cli env).1
    ∧ Event.extractReq c ∈ (runCLI cli env).1 := by
  have hpr : parsePageRange cli.pageRange = (0, 0) := by rw [hrange]; decide
  have hok : ∀ k, k < env.numPage → (0 : Int) ≤ (k : Int) → (k : Int) ≤ (0 : Int) →
      env.image k = .ok () ∧ (∃ x, env.jpegEncode k = .ok x)
        ∧ env.transcribe k = .ok ((fun _ => c) k) := by
    intro k hk h1 h2
    have hk0 : k = 0 := by omega
    subst hk0
    exact ⟨him0, henc0, htr0⟩
  have hfuel : env.numPage ≤ 0 + (env.numPage - 0) := by omega
  have hok2 : ∀ k, k < env.numPage → (0 : Int) ≤ (k : Int) → (k : Int) ≤ (0 : Int) →
      env.image k = .ok () ∧ (∃ x, env.jpegEncode k = .ok x)
        ∧ ∃ y, env.transcribe k = .ok y :=
    fun k hk h1 h2 => ⟨(hok k hk h1 h2).1, (hok k hk h1 h2).2.1, ⟨c, (hok k hk h1 h2).2.2⟩⟩
  have htr_pages : transcribedPages (pageLoop env 0 0 0 []).1 = [0] := by
    unfold pageLoop
    rw [pageLoopF_ok_trace env 0 0 hok2 (env.numPage - 0) 0 [] hfuel, hnum]
    decide
  have hres : (pageLoop env 0 0 0 []).2 = .ok [c] := by
    unfold pageLoop
    rw [pageLoopF_ok_result env 0 0 (fun _ => c) hok (env.numPage - 0) 0 [] hfuel, hnum]
    have hfil : (List.range' 0 (3 - 0)).filter
        (fun k : Nat => decide ((0 : Int) ≤ (k : Int)) && decide ((k : Int) ≤ (0 : Int)))
          = [0] := by decide
    rw [hfil]
    rfl
  have hp2 : ∀ ev : Event, ev.isPageEvent = false → ev.isClose = false →
      Event.isTranscribe ev = false := by
    intro ev h1 h2
    cases ev <;> simp_all [Event.isPageEvent, Event.isTranscribe]
  have hmd : String.intercalate "\n\n" [c] = c := rfl
  unfold runCLI runWithRange
  simp only [hopen, hpr]
  unfold pipelineAfterOpen
  simp only [hres, hmd]
  refine ⟨?_, ?_, ?_, ?_, ?_⟩
  · rw [List.countP_append, List.countP_append,
      ← transcribedPages_length, htr_pages,
      postLoop_countP_zero cli env c Event.isTranscribe hp2]
    rfl
  · refine List.mem_append_left _ (List.mem_append_left _ ?_)
    exact (mem_transcribedPages 0 _).mp (by rw [htr_pages]; exact List.mem_singleton.mpr rfl)
  · intro h
    rcases List.mem_append.mp h with h2 | h2
    · rcases List.mem_append.mp h2 with h3 | h3
      · have := (mem_transcribedPages 1 _).mpr h3
        rw [htr_pages] at this
        simp at this
      · obtain ⟨hpe, -⟩ := postLoop_events cli env c _ h3
        simp [Event.isPageEvent] at hpe
    · simp at h2
  · intro h
    rcases List.mem_append.mp h with h2 | h2
    · rcases List.mem_append.mp h2 with h3 | h3
      · have := (mem_transcribedPages 2 _).mpr h3
        rw [htr_pages] at this
        simp at this
      · obtain ⟨hpe, -⟩ := postLoop_events cli env c _ h3
        simp [Event.isPageEvent] at hpe
    · simp at h2
  · refine List.mem_append_left _ (List.mem_append_right _ ?_)
    exact postLoop_extract_mem cli env c

theorem range01_single_page_witness :
    (runCLI dryCLI okEnv3).1.countP Event.isTranscribe = 1
    ∧ Event.transcribeReq 0 ∈ (runCLI dryCLI okEnv3).1
    ∧ Event.transcribeReq 1 ∉ (runCLI dryCLI okEnv3).1
    ∧ Event.transcribeReq 2 ∉ (runCLI dryCLI okEnv3).1
    ∧ Event.extractReq "p0" ∈ (runCLI dryCLI okEnv3).1 :=
  range01_single_page dryCLI okEnv3 "p0" rfl rfl rfl rfl ⟨"enc", rfl⟩ rfl

/-- C5 counterexample: with `(startPage, endPage) = (2, 0)` on a 3-page
document, index 1 is strictly greater than `endPage = 0` and yet the loop
skips it (`pdf.skip`) rather than terminating there, only stopping at index 2
— the skip check `n < startPage` takes precedence over the stop check. -/
theorem loop_skip_past_end_counterexample :
    Event.logSkip 1 ∈ (pageLoop okEnv3 2 0 0 []).1
    ∧ ((0 : Int) < (1 : Int))
    ∧ Event.logEnd 2 ∈ (pageLoop okEnv3 2 0 0 []).1 := by decide

/-- C5 (amended): for every document and every pair with
`startPage ≤ endPage` whose in-range pages rasterize, encode and transcribe,
the loop transcribes exactly the indices `n` with `startPage ≤ n ≤ endPage`,
in ascending order; every skipped index is strictly below `startPage`; every
transcribed index is in range; the stop log can only occur at the first index
strictly greater than `endPage`; and the loop stops at most once. -/
theorem loop_bounds_amended (env : Env) (s e : Int) (hse : s ≤ e)
    (hok : ∀ k, k < env.numPage → s ≤ (k : Int) → (k : Int) ≤ e →
      env.image k = .ok () ∧ (∃ x, env.jpegEncode k = .ok x) ∧ (∃ c, env.transcribe k = .ok c)) :
    transcribedPages (pageLoop env s e 0 []).1
      = (List.range env.numPage).filter
          (fun k : Nat => decide (s ≤ (k : Int)) && decide ((k : Int) ≤ e))
    ∧ (∀ k, Event.logSkip k ∈ (pageLoop env s e 0 []).1 → (k : Int) < s)
    ∧ (∀ k, Event.transcribeReq k ∈ (pageLoop env s e 0 []).1 →
        s ≤ (k : Int) ∧ (k : Int) ≤ e ∧ k < env.numPage)
    ∧ (∀ k, Event.logEnd k ∈ (pageLoop env s e 0 []).1 → (k : Int) = max 0 (e + 1))
    ∧ (pageLoop env s e 0 []).1.countP Event.isLogEnd ≤ 1 := by
  refine ⟨?_, ?_, ?_, ?_, ?_⟩
  · unfold pageLoop
    rw [pageLoopF_ok_trace env s e hok (env.numPage - 0) 0 [] (by omega)]
    rw [Nat.sub_zero, ← List.range_eq_range']
  · exact fun k hk => pageLoopF_logSkip_mem env s e _ 0 [] k hk
  · exact fun k hk => pageLoopF_transcribe_mem env s e _ 0 [] k hk
  · intro k hk
    obtain ⟨hs1, he1, -, h4⟩ := pageLoopF_logEnd_mem env s e _ 0 [] k hk
    by_contra hne
    have hj0 : ((max 0 (e + 1)).toNat : Int) = max 0 (e + 1) :=
      Int.toNat_of_nonneg (le_max_left 0 (e + 1))
    have hlt : (max 0 (e + 1)).toNat < k := by omega
    rcases h4 ((max 0 (e + 1)).toNat) (Nat.zero_le _) hlt with h | h <;> omega
  · exact pageLoopF_logEnd_count env s e _ 0 []

theorem loop_bounds_amended_witness :
    transcribedPages (pageLoop okEnv3 1 1 0 []).1
      = (List.range okEnv3.numPage).filter
          (fun k : Nat => decide ((1 : Int) ≤ (k : Int)) && decide ((k : Int) ≤ (1 : Int)))
    ∧ (∀ k, Event.logSkip k ∈ (pageLoop okEnv3 1 1 0 []).1 → (k : Int) < 1)
    ∧ (∀ k, Event.transcribeReq k ∈ (pageLoop okEnv3 1 1 0 []).1 →
        (1 : Int) ≤ (k : Int) ∧ (k : Int) ≤ 1 ∧ k < okEnv3.numPage)
    ∧ (∀ k, Event.logEnd k ∈ (pageLoop okEnv3 1 1 0 []).1 → (k : Int) = max 0 (1 + 1))
    ∧ (pageLoop okEnv3 1 1 0 []).1.countP Event.isLogEnd ≤ 1 :=
  loop_bounds_amended okEnv3 1 1 (le_refl 1)
    (fun k _ _ _ => ⟨rfl, ⟨"enc", rfl⟩, ⟨"p" ++ toString k, rfl⟩⟩)

/-- C7: if the transcription request for an in-range page `n` fails (earlier
in-range pages having succeeded), `Run` aborts with the wrapped error naming
page `n`, no extraction request is ever issued, the rename operation is never
attempted; and, in general, whenever `Run` returns an error no successful
rename (the only filesystem change) appears in the trace. -/
theorem transcription_failure_aborts (cli : CLI) (env : Env) (n : Nat) (msg : String)
    (hn : n < env.numPage) (hopen : env.openDoc = .ok ())
    (hs : (parsePageRange cli.pageRange).1 ≤ (n : Int))
    (he : (n : Int) ≤ (parsePageRange cli.pageRange).2)
    (hpre : ∀ k, k < n → (parsePageRange cli.pageRange).1 ≤ (k : Int) →
      env.image k = .ok () ∧ (∃ x, env.jpegEncode k = .ok x) ∧ (∃ c, env.transcribe k = .ok c))
    (him : env.image n = .ok ()) (henc : ∃ x, env.jpegEncode n = .ok x)
    (htr : env.transcribe n = .error msg) :
    (runCLI cli env).2
      = .error ("failed to convert image #" ++ toString n ++ " to markdown: " ++ msg)
    ∧ (runCLI cli env).1.countP Event.isExtract = 0
    ∧ (runCLI cli env).1.countP Event.isRename = 0
    ∧ ∀ (cli2 : CLI) (env2 : Env) (err : String), (runCLI cli2 env2).2 = .error err →
        (runCLI cli2 env2).1.countP Event.isRenameOk = 0 := by
  have hloop : (pageLoop env (parsePageRange cli.pageRange).1 (parsePageRange cli.pageRange).2
      0 []).2 = .error ("failed to convert image #" ++ toString n ++ " to markdown: " ++ msg) :=
    pageLoopF_error_at env (parsePageRange cli.pageRange).1 (parsePageRange cli.pageRange).2
      n msg hn hs he hpre him henc htr (env.numPage - 0) 0 [] (Nat.zero_le n) (by omega)
  have hpe : ∀ ev : Event, ev.isPageEvent = true → Event.isExtract ev = false := by
    intro ev h1
    cases ev <;> simp_all [Event.isPageEvent, Event.isExtract]
  have hpr : ∀ ev : Event, ev.isPageEvent = true → Event.isRename ev = false := by
    intro ev h1
    cases ev <;> simp_all [Event.isPageEvent, Event.isRename]
  unfold runCLI runWithRange
  simp only [hopen]
  unfold pipelineAfterOpen
  simp only [hloop]
  refine ⟨by simp, ?_, ?_, fun cli2 env2 err h => runCLI_error_no_renameOk cli2 env2 err h⟩
  · rw [List.countP_append, pageLoop_countP_zero env _ _ 0 [] Event.isExtract hpe]
    rfl
  · rw [List.countP_append, pageLoop_countP_zero env _ _ 0 [] Event.isRename hpr]
    rfl

theorem transcription_failure_aborts_witness :
    (runCLI wetCLI2 failEnv5).2
      = .error ("failed to convert image #" ++ toString 2 ++ " to markdown: " ++ "boom")
    ∧ (runCLI wetCLI2 failEnv5).1.countP Event.isExtract = 0
    ∧ (runCLI wetCLI2 failEnv5).1.countP Event.isRename = 0
    ∧ ∀ (cli2 : CLI) (env2 : Env) (err : String), (runCLI cli2 env2).2 = .error err →
        (runCLI cli2 env2).1.countP Event.isRenameOk = 0 :=
  transcription_failure_aborts wetCLI2 failEnv5 2 "boom" (by decide) rfl (by decide) (by decide)
    (fun k hk hsk => by
      have h2 : (parsePageRange wetCLI2.pageRange).1 = 2 := by decide
      rw [h2] at hsk
      exfalso
      omega)
    rfl ⟨"enc", rfl⟩ rfl

/-- C8: if the extraction client's response payload does not decode into a
flat string-to-string mapping, `Run` returns the wrapped decode error and
aborts before the filename template is parsed or executed (and no rename is
attempted). -/
theorem unmarshal_error_aborts (cli : CLI) (env : Env) (contents : List String)
    (payload msg : String) (hopen : env.openDoc = .ok ())
    (hloop : (pageLoop env (parsePageRange cli.pageRange).1 (parsePageRange cli.pageRange).2
        0 []).2 = .ok contents)
    (hex : env.extract (String.intercalate "\n\n" contents) = .ok payload)
    (hj : env.jsonUnmarshal payload = .error msg) :
    (runCLI cli env).2 = .error ("failed to unmarshal JSON payload: " ++ msg)
    ∧ (runCLI cli env).1.countP Event.isTmpl = 0
    ∧ (runCLI cli env).1.countP Event.isRename = 0 := by
  have hpl := postLoop_unmarshal_error cli env (String.intercalate "\n\n" contents) payload msg hex hj
  have hpt : ∀ ev : Event, ev.isPageEvent = true → Event.isTmpl ev = false := by
    intro ev h1
    cases ev <;> simp_all [Event.isPageEvent, Event.isTmpl]
  have hpr : ∀ ev : Event, ev.isPageEvent = true → Event.isRename ev = false := by
    intro ev h1
    cases ev <;> simp_all [Event.isPageEvent, Event.isRename]
  unfold runCLI runWithRange
  simp only [hopen]
  unfold pipelineAfterOpen
  simp only [hloop, hpl]
  refine ⟨by simp, ?_, ?_⟩
  · rw [List.countP_append, List.countP_append,
      pageLoop_countP_zero env _ _ 0 [] Event.isTmpl hpt]
    rfl
  · rw [List.countP_append, List.countP_append,
      pageLoop_countP_zero env _ _ 0 [] Event.isRename hpr]
    rfl

theorem unmarshal_error_aborts_witness :
    (runCLI dryCLI badJsonEnv3).2
      = .error ("failed to unmarshal JSON payload: " ++ "cannot unmarshal")
    ∧ (runCLI dryCLI badJsonEnv3).1.countP Event.isTmpl = 0
    ∧ (runCLI dryCLI badJsonEnv3).1.countP Event.isRename = 0 :=
  unmarshal_error_aborts dryCLI badJsonEnv3 ["p0"] "payload" "cannot unmarshal"
    rfl rfl rfl rfl

/-- C6: when the pipeline reaches the terminal step with rendered filename
`fn`: in dry-run mode `Run` never invokes the rename operation (for any
environment), writes `fn` to standard output and returns nil; in non-dry-run
mode `Run` invokes the rename operation exactly once, with the source path as
source and `fn` as target. -/
theorem dry_run_prints_wet_renames (cli : CLI) (env : Env) (contents : List String)
    (payload fn : String) (values : List (String × String))
    (hopen : env.openDoc = .ok ())
    (hloop : (pageLoop env (parsePageRange cli.pageRange).1 (parsePageRange cli.pageRange).2
        0 []).2 = .ok contents)
    (hex : env.extract (String.intercalate "\n\n" contents) = .ok payload)
    (hj : env.jsonUnmarshal payload = .ok values)
    (hp : env.tmplParseRes cli.format = .ok ())
    (he : env.tmplExecRes cli.format values = .ok fn) :
    (cli.dryRun = true →
      (∀ env2 : Env, (runCLI cli env2).1.countP Event.isRename = 0)
      ∧ Event.printOut fn ∈ (runCLI cli env).1
      ∧ (runCLI cli env).2 = .ok ())
    ∧ (cli.dryRun = false →
      (runCLI cli env).1.countP Event.isRename = 1
      ∧ ∃ b, Event.renameOp cli.filename fn b ∈ (runCLI cli env).1) := by
  constructor
  · intro hd
    refine ⟨fun env2 => runCLI_dry_no_rename cli env2 hd, ?_, ?_⟩
    · have hpl := postLoop_dry_success cli env (String.intercalate "\n\n" contents)
        payload fn values hd hex hj hp he
      unfold runCLI runWithRange
      simp only [hopen]
      unfold pipelineAfterOpen
      simp only [hloop, hpl]
      refine List.mem_append_left _ (List.mem_append_right _ ?_)
      simp
    · have hpl := postLoop_dry_success cli env (String.intercalate "\n\n" contents)
        payload fn values hd hex hj hp he
      unfold runCLI runWithRange
      simp only [hopen]
      unfold pipelineAfterOpen
      simp only [hloop, hpl]
  · intro hd
    have hwet := postLoop_wet_rename cli env (String.intercalate "\n\n" contents)
      payload fn values hd hex hj hp he
    have hpr : ∀ ev : Event, ev.isPageEvent = true → Event.isRename ev = false := by
      intro ev h1
      cases ev <;> simp_all [Event.isPageEvent, Event.isRename]
    unfold runCLI runWithRange
    simp only [hopen]
    unfold pipelineAfterOpen
    simp only [hloop]
    constructor
    · rw [List.countP_append, List.countP_append,
        pageLoop_countP_zero env _ _ 0 [] Event.isRename hpr, hwet.1]
      rfl
    · obtain ⟨b, hb⟩ := hwet.2
      exact ⟨b, List.mem_append_left _ (List.mem_append_right _ hb)⟩

theorem dry_run_prints_wet_renames_witness :
    ((dryCLI.dryRun = true →
      (∀ env2 : Env, (runCLI dryCLI env2).1.countP Event.isRename = 0)
      ∧ Event.printOut "X.pdf" ∈ (runCLI dryCLI okEnv3).1
      ∧ (runCLI dryCLI okEnv3).2 = .ok ())
    ∧ (dryCLI.dryRun = false →
      (runCLI dryCLI okEnv3).1.countP Event.isRename = 1
      ∧ ∃ b, Event.renameOp dryCLI.filename "X.pdf" b ∈ (runCLI dryCLI okEnv3).1)) :=
  dry_run_prints_wet_renames dryCLI okEnv3 ["p0"] "payload" "X.pdf" [("Title", "X")]
    rfl rfl rfl rfl rfl rfl

/-- C9: on every execution of `Run` in which the document open succeeds, the
document handle is released exactly once before `Run` returns — on the
success path and on every error path. -/
theorem doc_close_once (cli : CLI) (env : Env) (h : env.openDoc = .ok ()) :
    (runCLI cli env).1.countP Event.isClose = 1 := by
  unfold runCLI runWithRange
  simp only [h]
  rw [List.countP_append, pipeline_no_close]
  rfl

theorem doc_close_once_witness :
    okEnv3.openDoc = .ok () ∧ (runCLI dryCLI okEnv3).1.countP Event.isClose = 1 :=
  ⟨rfl, doc_close_once dryCLI okEnv3 rfl⟩

/-- C10: for every page-range input string whatsoever the parsed selector
satisfies `startPage = endPage`; consequently, for every document and CLI
configuration, at most one page is ever transcribed and the Transcript
contains at most one entry. -/
theorem range_collapses_single_page :
    (∀ spec : String, (parsePageRange spec).1 = (parsePageRange spec).2)
    ∧ (∀ (cli : CLI) (env : Env), (runCLI cli env).1.countP Event.isTranscribe ≤ 1)
    ∧ (∀ (cli : CLI) (env : Env) (contents : List String),
        (pageLoop env (parsePageRange cli.pageRange).1 (parsePageRange cli.pageRange).2
          0 []).2 = .ok contents → contents.length ≤ 1) := by
  refine ⟨parsePageRange_fst_eq_snd, runCLI_transcribe_le_one, ?_⟩
  intro cli env contents h
  rw [parsePageRange_fst_eq_snd] at h
  unfold pageLoop at h
  have := (pageLoopF_single_bound env (parsePageRange cli.pageRange).2
    (env.numPage - 0) 0 []).2 contents h
  simpa using this

theorem range_collapses_single_page_witness :
    (parsePageRange "1").1 = (parsePageRange "1").2
    ∧ (runCLI dryCLI okEnv3).1.countP Event.isTranscribe ≤ 1
    ∧ (["p0"] : List String).length ≤ 1 :=
  ⟨range_collapses_single_page.1 "1", range_collapses_single_page.2.1 dryCLI okEnv3,
    range_collapses_single_page.2.2 dryCLI okEnv3 ["p0"] rfl⟩

/-- C2: for every page-range spec that contains no dash, the page selector
yields `startPage = 0` and `endPage = 0`, regardless of the token's value. -/
theorem single_token_range_zero (spec : String) (h : '-' ∉ spec.toList) :
    parsePageRange spec = (0, 0) :=
  parsePageRange_single spec h

theorem single_token_range_zero_witness :
    ('-' ∉ "7".toList) ∧ parsePageRange "7" = (0, 0) :=
  ⟨by decide, single_token_range_zero "7" (by decide)⟩

/-- C3: for every page-range spec of the form `"N-M"` (one dash separating two
dash-free tokens), the selector parses both `startPage` and `endPage` from the
first token `N`; the second token `M` (here arbitrary `b`) has no effect. -/
theorem dash_range_uses_first_token (a b : List Char) (ha : '-' ∉ a) (hb : '-' ∉ b) :
    parsePageRange (String.mk (a ++ '-' :: b)) = (goAtoi a, goAtoi a) :=
  parsePageRange_pair a b ha hb

theorem dash_range_uses_first_token_witness :
    ('-' ∉ ['3']) ∧ ('-' ∉ ['7'])
    ∧ parsePageRange (String.mk (['3'] ++ '-' :: ['7'])) = (goAtoi ['3'], goAtoi ['3']) :=
  ⟨by decide, by decide, dash_range_uses_first_token ['3'] ['7'] (by decide) (by decide)⟩

/-- C4: for a page-range spec `"N-M"` whose parsed token `N` is malformed
(not Go integer syntax), no error is raised: the failed `Atoi` yields 0, the
selector returns `(0, 0)`, and `Run` proceeds with those defaults. -/
theorem malformed_range_defaults_zero (a b : List Char) (cli : CLI) (env : Env)
    (ha : '-' ∉ a) (hb : '-' ∉ b) (hmal : goIntWellFormed a = false)
    (hr : cli.pageRange = String.mk (a ++ '-' :: b)) :
    goAtoi a = 0 ∧ parsePageRange cli.pageRange = (0, 0)
    ∧ runCLI cli env = runWithRange cli env 0 0 := by
  have h0 : goAtoi a = 0 := goAtoi_malformed a hmal
  have h1 : parsePageRange cli.pageRange = (0, 0) := by
    rw [hr, parsePageRange_pair a b ha hb, h0]
  refine ⟨h0, h1, ?_⟩
  unfold runCLI
  rw [h1]

theorem malformed_range_defaults_zero_witness :
    ('-' ∉ ['x']) ∧ ('-' ∉ ['y']) ∧ goIntWellFormed ['x'] = false
    ∧ (goAtoi ['x'] = 0 ∧ parsePageRange malCLI.pageRange = (0, 0)
        ∧ runCLI malCLI okEnv3 = runWithRange malCLI okEnv3 0 0) :=
  ⟨by decide, by decide, by decide,
    malformed_range_defaults_zero ['x'] ['y'] malCLI okEnv3 (by decide) (by decide)
      (by decide) (by decide)⟩
